import Mathlib

/-!
Verification of the instrumentation distribution layer in
`src/packages/node-opentelemetry/src/otel.ts`.

The file shallowly embeds the data model and the operations of that module:
* the semver compatibility check `isSupported` (otel.ts lines 89-102),
* the repatch pass run by `initSDK` when `programmaticImports` is set
  (otel.ts lines 382-492), modelled as a pure state transformer that also
  emits an event trace recording patch invocations, disables, and logged
  errors,
* `setTraceAttributes` (otel.ts lines 624-639) over a model of the mutable
  context-manager state,
* the early-return guard of `initSDK` (otel.ts lines 142-167), modelled as
  the sequence of externally visible initialization effects.
-/

namespace HyperDX

/-! ### Semantic versions

The repository delegates version comparison to the third-party `semver`
package.  The model below implements the documented semantics of
`semver.satisfies` for the range forms this repository actually passes to
it: the bare wildcard `*`, caret ranges `^x.y.z`, and exact versions
`x.y.z`.  A version with a prerelease tag satisfies a range only when
`includePrerelease` is set, matching the package's default behaviour for
these range forms.  Invalid versions or ranges satisfy nothing. -/

/-- A parsed semantic version: the `major.minor.patch` core plus whether a
prerelease tag (`-...`) was present. -/
structure SemVer where
  major : Nat
  minor : Nat
  patch : Nat
  prerelease : Bool
deriving DecidableEq

/-- Split a character list into the groups separated by `'.'`. -/
def splitDots : List Char → List (List Char)
  | [] => [[]]
  | c :: rest =>
    let r := splitDots rest
    if c = '.' then [] :: r
    else
      match r with
      | [] => [[c]]
      | g :: gs => (c :: g) :: gs

/-- The characters before the first `'-'` (the version core). -/
def takeUntilDash : List Char → List Char
  | [] => []
  | c :: rest => if c = '-' then [] else c :: takeUntilDash rest

/-- Parse a non-empty all-digit character list as a natural number. -/
def parseNatChars (cs : List Char) : Option Nat :=
  if cs = [] then none
  else
    cs.foldl
      (fun acc c =>
        match acc with
        | none => none
        | some n => if c.isDigit then some (n * 10 + (c.toNat - 48)) else none)
      (some 0)

/-- Parse a version given as a character list `major.minor.patch[-pre]`. -/
def parseSemVerChars (cs : List Char) : Option SemVer :=
  let pre := cs.contains '-'
  match splitDots (takeUntilDash cs) with
  | [a, b, c] =>
    match parseNatChars a, parseNatChars b, parseNatChars c with
    | some x, some y, some z => some ⟨x, y, z, pre⟩
    | _, _, _ => none
  | _ => none

/-- Parse a version string `major.minor.patch[-pre]`. -/
def parseSemVer (s : String) : Option SemVer :=
  parseSemVerChars s.data

/-- Strict lexicographic order on version cores. -/
def verLt (a b : SemVer) : Bool :=
  decide (a.major < b.major ∨
    (a.major = b.major ∧ (a.minor < b.minor ∨
      (a.minor = b.minor ∧ a.patch < b.patch))))

/-- Equality of version cores (prerelease tags ignored). -/
def verCoreEq (a b : SemVer) : Bool :=
  decide (a.major = b.major ∧ a.minor = b.minor ∧ a.patch = b.patch)

/-- The exclusive upper bound of a caret range `^v`: the next breaking
version (`(major+1).0.0`, or `0.(minor+1).0` when `major = 0`, or
`0.0.(patch+1)` when `major = minor = 0`). -/
def caretUpper (v : SemVer) : SemVer :=
  if v.major > 0 then ⟨v.major + 1, 0, 0, false⟩
  else if v.minor > 0 then ⟨0, v.minor + 1, 0, false⟩
  else ⟨0, 0, v.patch + 1, false⟩

/-- Model of `semver.satisfies(version, range, { includePrerelease })` for
the wildcard, caret, and exact range forms. -/
def semverSatisfies (version range : String) (includePrerelease : Bool) : Bool :=
  match parseSemVerChars version.data with
  | none => false
  | some v =>
    if v.prerelease && !includePrerelease then false
    else
      match range.data with
      | ['*'] => true
      | '^' :: rest =>
        match parseSemVerChars rest with
        | none => false
        | some base => !verLt v base && verLt v (caretUpper base)
      | _ =>
        match parseSemVerChars range.data with
        | none => false
        | some exact => verCoreEq v exact

/-- Embedding of `isSupported` (otel.ts lines 89-102): with no version only the bare
wildcard is accepted; with a version, some listed range must be satisfied. -/
def isSupported (supportedVersions : List String) (version : Option String)
    (includePrerelease : Bool) : Bool :=
  match version with
  | none => supportedVersions.contains "*"
  | some v =>
    supportedVersions.any fun supportedVersion =>
      semverSatisfies v supportedVersion includePrerelease

/-! ### The repatch pass

`initSDK` (otel.ts lines 382-492) runs, when `programmaticImports` is set,
one pass over all instrumentations: for each instrumentation whose
`_modules` is an array it first calls `instrumentation.disable()` and then,
for every module definition whose module resolves, re-requires the module
exports and package version (each failure caught and logged), applies the
module-level patch when the version is supported, and applies every
file-level patch whose own version ranges are supported.

The pass is modelled as a pure transformer of the instrumentation state
that also emits an event trace.  Module-export objects are identified by a
`Nat` id (only identity matters).  `require`/`require.resolve` behaviour is
an explicit environment of functions.  A patch, unpatch or require that
throws is modelled by a flag / `Except.error`; `disable()` is external
library code with no surrounding try/catch in otel.ts, so a throwing
unpatch aborts the whole pass. -/

/-- A file-level sub-target (`InstrumentationModuleFile`): its name, its
own supported version ranges, whether its patch function throws, and the
exports object it is currently bound to. -/
structure FileDef where
  name : String
  supportedVersions : List String
  patchThrows : Bool
  moduleExports : Option Nat
deriving DecidableEq

/-- A module-level target (`InstrumentationModuleDefinition`). `hasPatch`
models `typeof module.patch === 'function'`; `patchThrows` whether calling
it throws; `moduleExports`/`moduleVersion` are the mutable resolved
fields. -/
structure ModuleDef where
  name : String
  supportedVersions : List String
  includePrerelease : Bool
  hasPatch : Bool
  patchThrows : Bool
  moduleExports : Option Nat
  moduleVersion : Option String
  files : List FileDef
deriving DecidableEq

/-- One instrumentation: `modules = none` models `_modules` not being an
array (the `Array.isArray` guard); `disableThrows` models an unpatch
function that throws inside `instrumentation.disable()`. -/
structure Instr where
  id : Nat
  modules : Option (List ModuleDef)
  disableThrows : Bool
deriving DecidableEq

/-- The module-resolution environment: `resolve` is `getModuleId`
(otel.ts lines 79-86, `require.resolve` with errors turned into `null`),
`requireExports` is `require(name)` and `requirePkgVersion` is
`require(path.join(name, 'package.json')).version`, both either throwing
or returning a value. -/
structure ModuleEnv where
  resolve : String → Option String
  requireExports : String → Except String Nat
  requirePkgVersion : String → Except String String

/-- Observable events of a repatch pass: a completed
`instrumentation.disable()`, a module-level or file-level patch invocation
(with the exports object identity and the version passed), and a logged
(caught) error. -/
inductive Ev where
  | disable (instr : Nat)
  | patchModule (instr : Nat) (module : String) (exports : Nat) (version : Option String)
  | patchFile (instr : Nat) (module file : String) (exports : Nat) (version : Option String)
  | logError (msg : String)
deriving DecidableEq

/-- Processing of one supported file sub-target (otel.ts lines 454-485):
re-require its exports (a failure is logged and skips the patch via
`continue`), then invoke its patch, catching and logging a throw. -/
def processFile (env : ModuleEnv) (n : Nat) (modName : String)
    (version : Option String) (f : FileDef) : FileDef × List Ev :=
  match env.requireExports f.name with
  | .error _ =>
    (f, [.logError "Error re-requiring moduleExports for nodejs module file"])
  | .ok e =>
    ({ f with moduleExports := some e },
      .patchFile n modName f.name e version ::
        (if f.patchThrows then
          [.logError "Error applying instrumentation patch for nodejs module file"]
        else []))

/-- The value of `module.moduleExports` after the re-require attempt at
otel.ts lines 395-405: the fresh exports on success, the previous value
when `require` threw. -/
def resolvedExportsAfter (env : ModuleEnv) (m : ModuleDef) : Option Nat :=
  match env.requireExports m.name with
  | .ok e => some e
  | .error _ => m.moduleExports

/-- The value of `module.moduleVersion` after the package.json re-require
attempt at otel.ts lines 406-416: the fresh version on success, the
previous value when `require` threw. -/
def resolvedVersionAfter (env : ModuleEnv) (m : ModuleDef) : Option String :=
  match env.requirePkgVersion m.name with
  | .ok v => some v
  | .error _ => m.moduleVersion

/-- The diagnostic logged when the exports re-require throws (otel.ts
lines 399-405). -/
def exportsLog (env : ModuleEnv) (m : ModuleDef) : List Ev :=
  match env.requireExports m.name with
  | .ok _ => []
  | .error _ => [.logError "Error re-requiring moduleExports for nodejs module"]

/-- The diagnostic logged when the package.json re-require throws (otel.ts
lines 410-416). -/
def versionLog (env : ModuleEnv) (m : ModuleDef) : List Ev :=
  match env.requirePkgVersion m.name with
  | .ok _ => []
  | .error _ => [.logError "Error re-requiring package.json for nodejs module"]

/-- The module-level patch step (otel.ts lines 419-443): invoked when the
re-resolved version is supported, `module.patch` is a function and the
exports are present; a throw is caught and logged. -/
def modulePatchEvs (env : ModuleEnv) (n : Nat) (m : ModuleDef) : List Ev :=
  if isSupported m.supportedVersions (resolvedVersionAfter env m) m.includePrerelease
      && m.hasPatch && (resolvedExportsAfter env m).isSome then
    .patchModule n m.name ((resolvedExportsAfter env m).getD 0)
        (resolvedVersionAfter env m) ::
      (if m.patchThrows then
        [.logError "Error applying instrumentation patch for nodejs module"]
      else [])
  else []

/-- One file sub-target inside the loop at otel.ts lines 445-485: only the
files whose own `supportedVersions` accept the module's re-resolved
version (the `filter` at lines 446-452) are processed. -/
def fileStep (env : ModuleEnv) (n : Nat) (m : ModuleDef) (f : FileDef) :
    FileDef × List Ev :=
  if isSupported f.supportedVersions (resolvedVersionAfter env m) m.includePrerelease then
    processFile env n m.name (resolvedVersionAfter env m) f
  else (f, [])

/-- Processing of one module definition inside the repatch pass (otel.ts
lines 392-486): skip entirely when `getModuleId` is `null`; otherwise
re-require exports and package version (each failure caught, logged, and
leaving the previous field value), apply the module patch when the version
is supported, the patch is a function and exports are present (a throw is
caught and logged), then process exactly the files whose own ranges accept
the module's resolved version. -/
def processModule (env : ModuleEnv) (n : Nat) (m : ModuleDef) : ModuleDef × List Ev :=
  match env.resolve m.name with
  | none => (m, [])
  | some _ =>
    ({ m with
        moduleExports := resolvedExportsAfter env m
        moduleVersion := resolvedVersionAfter env m
        files := (m.files.map (fileStep env n m)).map Prod.fst },
      exportsLog env m ++ versionLog env m ++ modulePatchEvs env n m ++
        (m.files.map (fileStep env n m)).flatMap Prod.snd)

/-- Processing of one instrumentation (otel.ts lines 385-488): nothing
happens unless `_modules` is an array; otherwise `disable()` runs first —
a throwing unpatch aborts (third component `true`) — and then every module
is processed in order. -/
def processInstr (env : ModuleEnv) (i : Instr) : Instr × List Ev × Bool :=
  match i.modules with
  | none => (i, [], false)
  | some ms =>
    if i.disableThrows then (i, [], true)
    else
      let results := ms.map (processModule env i.id)
      ({ i with modules := some (results.map Prod.fst) },
        (.disable i.id :: results.flatMap Prod.snd, false))

/-- The full repatch pass over the instrumentation list: instrumentations
in order; an abort (uncaught `disable()` exception) stops the pass, leaving
later instrumentations untouched. -/
def repatchPass (env : ModuleEnv) : List Instr → List Instr × List Ev × Bool
  | [] => ([], [], false)
  | i :: rest =>
    let r := processInstr env i
    if r.2.2 then (r.1 :: rest, r.2.1, true)
    else
      let rr := repatchPass env rest
      (r.1 :: rr.1, r.2.1 ++ rr.2.1, rr.2.2)

/-- Does this event record a module-level patch invocation for `modName`? -/
def Ev.isModulePatchOf (e : Ev) (modName : String) : Bool :=
  match e with
  | .patchModule _ m _ _ => m == modName
  | _ => false

/-- How many times a module-level patch for `modName` was invoked. -/
def countModulePatches (evs : List Ev) (modName : String) : Nat :=
  (evs.filter (fun e => e.isModulePatchOf modName)).length

/-- The instrumentation id of a patch-invocation event, if it is one. -/
def patchInstrId : Ev → Option Nat
  | .patchModule n _ _ _ => some n
  | .patchFile n _ _ _ _ => some n
  | _ => none

/-- Scans an event trace and checks that every patch invocation is preceded
by a `disable` of the same instrumentation; `disabled` accumulates the
instrumentations already disabled. -/
def checkDisableFirst (disabled : List Nat) : List Ev → Bool
  | [] => true
  | e :: rest =>
    match e with
    | .disable n => checkDisableFirst (n :: disabled) rest
    | _ =>
      match patchInstrId e with
      | some n => disabled.contains n && checkDisableFirst disabled rest
      | none => checkDisableFirst disabled rest

/-! ### Trace attributes and the mutable context

`setTraceAttributes` (otel.ts lines 624-639) writes the given attributes
into the mutable context obtained from the module-level `contextManager`,
which `initSDK` sets (otel.ts lines 246-250) to a
`MutableAsyncLocalStorageContextManager` when the Node.js runtime is at
least 14.8.0 and to `undefined` otherwise.  The manager's task-local store
is modelled by its observable shape: whether `getMutableContext` is a
function, and the mutable context (if any) it currently returns. -/

/-- An attribute value (string, number or boolean; arrays omitted — no
claim distinguishes value shapes). -/
inductive AttrValue where
  | str (s : String)
  | int (n : Int)
  | bool (b : Bool)
deriving DecidableEq

/-- JavaScript `Map` as an insertion-ordered association list. -/
def mapSet (m : List (String × AttrValue)) (k : String) (v : AttrValue) :
    List (String × AttrValue) :=
  if m.any (fun p => p.1 == k) then
    m.map fun p => if p.1 == k then (k, v) else p
  else m ++ [(k, v)]

/-- Lookup, as `Map.prototype.get`. -/
def mapGet (m : List (String × AttrValue)) (k : String) : Option AttrValue :=
  (m.find? (fun p => p.1 == k)).map Prod.snd

/-- The mutable context returned by `getMutableContext`: its
`traceAttributes` map is `none` until first created. -/
structure MutableContext where
  traceAttributes : Option (List (String × AttrValue))
deriving DecidableEq

/-- The observable state of the module-level context manager:
`hasGetMutableContext` models `typeof getMutableContext === 'function'`,
`mutableContext` what calling it returns (`none` for null/undefined, i.e.
no mutable context active for the calling task). -/
structure ContextManagerState where
  hasGetMutableContext : Bool
  mutableContext : Option MutableContext
deriving DecidableEq

/-- Model of `semver.gte` on version strings (a leading `v`, as in
`process.version`, is accepted). -/
def semverGte (a b : String) : Bool :=
  let strip : List Char → List Char := fun cs =>
    match cs with
    | 'v' :: rest => rest
    | _ => cs
  match parseSemVerChars (strip a.data), parseSemVerChars (strip b.data) with
  | some x, some y => !verLt x y
  | _, _ => false

/-- otel.ts lines 246-250: the context manager exists only on Node.js
14.8.0 or newer (`AsyncLocalStorage` availability); when it exists, its
`getMutableContext` is a function and returns the store's current mutable
context. -/
def mkContextManager (nodeVersion : String) (active : Option MutableContext) :
    Option ContextManagerState :=
  if semverGte nodeVersion "14.8.0" then some ⟨true, active⟩ else none

/-- The loop at otel.ts lines 634-636: `Map.set` every entry of
`attributes`, in order, into the map `m0`. -/
def mergeAttrs (m0 : List (String × AttrValue))
    (attributes : List (String × AttrValue)) : List (String × AttrValue) :=
  attributes.foldl (fun acc kv => mapSet acc kv.1 kv.2) m0

/-- Embedding of `setTraceAttributes` (otel.ts lines 624-639) as a transformer of the
context-manager state: guarded on the manager existing, on
`getMutableContext` being a function and on a mutable context being
active; creates the `traceAttributes` map if absent and `Map.set`s every
entry of `attributes` in order. -/
def setTraceAttributes (cm : Option ContextManagerState)
    (attributes : List (String × AttrValue)) : Option ContextManagerState :=
  match cm with
  | none => cm
  | some c =>
    if c.hasGetMutableContext then
      match c.mutableContext with
      | none => cm
      | some mc =>
        let m0 := mc.traceAttributes.getD []
        some { c with mutableContext := some ⟨some (mergeAttrs m0 attributes)⟩ }
    else cm

/-- The value the merge gives key `k`: the last value paired with `k` in
`attributes` (JavaScript object entries are written in order, so the last
write wins). -/
def lastVal (attributes : List (String × AttrValue)) (k : String) : Option AttrValue :=
  (attributes.reverse.find? (fun p => p.1 == k)).map Prod.snd

/-! ### The initSDK guard

For claim C10 only the externally visible initialization effects and the
order of the early-return guard matter; they are modelled as the effect
list `initSDKEffects` produces.  otel.ts lines 158-167: when neither
`OTEL_EXPORTER_OTLP_HEADERS` nor an api key (config value or
`HYPERDX_API_KEY`, combined with `??`) is truthy, `initSDK` returns before
any of the later effects. -/

/-- The externally visible steps of `initSDK`, in source order:
`setOtelEnvs` (line 170), logger construction (line 207), `new NodeSDK`
(line 293), `sdk.start()` (line 378), the repatch pass (lines 382-492) and
the termination-signal handler installation (lines 500-507);
`skippedInit` is the early return at line 166. -/
inductive InitEffect where
  | skippedInit
  | setOtelEnvs
  | initLogger
  | constructSDK
  | startSDK
  | repatchAll
  | installSignalHandlers
deriving DecidableEq

/-- JavaScript truthiness of a possibly-undefined string (the empty string
is falsy). -/
def jsTruthy (o : Option String) : Bool :=
  match o with
  | none => false
  | some s => !(s == "")

/-- The environment variables `initSDK`'s guard reads (`none` = unset). -/
structure EnvVars where
  hyperdxApiKey : Option String
  otlpHeaders : Option String

/-- The `SDKConfig` fields that determine which effects run. -/
structure SDKConfig where
  apiKey : Option String
  programmaticImports : Bool
  stopOnTerminationSignals : Option Bool

/-- The effect sequence of `initSDK config` under environment `env`, with
`defaultStopOnSignals` standing for
`DEFAULT_HDX_NODE_STOP_ON_TERMINATION_SIGNALS`. -/
def initSDKEffects (config : SDKConfig) (env : EnvVars)
    (defaultStopOnSignals : Bool) : List InitEffect :=
  let defaultApiKey : Option String :=
    match config.apiKey with
    | some k => some k
    | none => env.hyperdxApiKey
  if !jsTruthy env.otlpHeaders && !jsTruthy defaultApiKey then
    [.skippedInit]
  else
    let stopOnSignals := config.stopOnTerminationSignals.getD defaultStopOnSignals
    [.setOtelEnvs, .initLogger, .constructSDK, .startSDK]
      ++ (if config.programmaticImports then [.repatchAll] else [])
      ++ (if stopOnSignals then [.installSignalHandlers] else [])

/-! ### Further event-trace observations -/

/-- Is this a `disable` event? -/
def Ev.isDisable : Ev → Bool
  | .disable _ => true
  | _ => false

/-- Is this a file-level patch invocation? -/
def Ev.isFilePatch : Ev → Bool
  | .patchFile _ _ _ _ _ => true
  | _ => false

/-- The file-level patch invocations of a trace, in order. -/
def filePatchEvents (evs : List Ev) : List Ev :=
  evs.filter Ev.isFilePatch

/-- All patch invocations (module- or file-level) of a trace, in order. -/
def patchInvocations (evs : List Ev) : List Ev :=
  evs.filter fun e => (patchInstrId e).isSome

/-! ### Concrete inputs used by counterexamples and witnesses -/

/-- An environment where every module resolves, `require` always returns
the same cached exports object (id 7) — Node's `require` cache — and the
package version reads as 2.3.1. -/
def envCached : ModuleEnv :=
  ⟨fun _ => some "/node_modules/m/index.js", fun _ => .ok 7, fun _ => .ok "2.3.1"⟩

/-- A compatible module-level target for module `"m"`, ranges `^2.0.0`. -/
def modM : ModuleDef :=
  ⟨"m", ["^2.0.0"], false, true, false, none, none, []⟩

/-- One instrumentation owning `modM`. -/
def instrM : Instr := ⟨0, some [modM], false⟩

/-- An environment where every module resolves with exports id 1 and
version 3.0.0. -/
def envAB : ModuleEnv :=
  ⟨fun _ => some "/id", fun _ => .ok 1, fun _ => .ok "3.0.0"⟩

/-- A compatible target for module `"a"`. -/
def modA : ModuleDef := ⟨"a", ["^3.0.0"], false, true, false, none, none, []⟩

/-- A compatible target for module `"b"`. -/
def modB : ModuleDef := ⟨"b", ["^3.0.0"], false, true, false, none, none, []⟩

/-- An instrumentation for `"a"` whose unpatch throws inside `disable()`. -/
def instrAThrowing : Instr := ⟨0, some [modA], true⟩

/-- The same instrumentation with a well-behaved unpatch. -/
def instrAOk : Instr := ⟨0, some [modA], false⟩

/-- A sibling instrumentation for `"b"`. -/
def instrB : Instr := ⟨1, some [modB], false⟩

/-- An environment where modules resolve and exports re-require succeeds
but reading package.json throws. -/
def envNoPkg : ModuleEnv :=
  ⟨fun _ => some "/id", fun _ => .ok 5, fun _ => .error "ENOENT"⟩

/-- A target for `"m"` that already carries a previously resolved version
1.9.0 and accepts `^1.0.0` (no wildcard). -/
def modPrevVersion : ModuleDef :=
  ⟨"m", ["^1.0.0"], false, true, false, none, some "1.9.0", []⟩

/-- A file-level sub-target of `"m"` accepting `^3.0.0`. -/
def fileF : FileDef := ⟨"m/lib/f.js", ["^3.0.0"], false, none⟩

/-- A target for `"m"` whose own ranges (`^1.0.0`) reject version 3.0.0
while its file-level sub-target `fileF` accepts it. -/
def modWithFile : ModuleDef :=
  ⟨"m", ["^1.0.0"], false, true, false, none, none, [fileF]⟩

/-- An environment that resolves only module `"b"` (exports id 2,
version 3.0.0). -/
def envOnlyB : ModuleEnv :=
  ⟨fun s => if s == "b" then some "/b" else none,
   fun s => if s == "b" then .ok 2 else .error "not found",
   fun s => if s == "b" then .ok "3.0.0" else .error "not found"⟩

/-- Both targets under one instrumentation; `"a"` will be absent under
`envOnlyB`. -/
def instrAB : Instr := ⟨0, some [modA, modB], false⟩

/-- An `SDKConfig` with no api key. -/
def cfgNoKey : SDKConfig := ⟨none, true, none⟩

/-- An environment with neither `HYPERDX_API_KEY` nor
`OTEL_EXPORTER_OTLP_HEADERS`. -/
def envVarsNoKey : EnvVars := ⟨none, none⟩

/-- A manager state with an active mutable context holding one attribute. -/
def cmsActive : ContextManagerState :=
  ⟨true, some ⟨some [("tenant", .str "acme")]⟩⟩

/-- A manager state whose store has no active mutable context. -/
def cmsNoCtx : ContextManagerState := ⟨true, none⟩

/-! ## Theorems -/

/-- C1: `isSupported` returns true iff either the version is absent and
the range list contains the bare wildcard `*`, or the version is present
and satisfies at least one listed semver range (honoring
`includePrerelease`); in particular the four concrete cases from the
spec. -/
theorem C1_isSupported_characterization :
    (∀ (supportedVersions : List String) (version : Option String) (ip : Bool),
      isSupported supportedVersions version ip = true ↔
        ((version = none ∧ "*" ∈ supportedVersions) ∨
          (∃ v, version = some v ∧
            ∃ r ∈ supportedVersions, semverSatisfies v r ip = true))) ∧
    isSupported ["^2.0.0"] (some "2.3.1") false = true ∧
    isSupported ["^2.0.0"] (some "1.9.0") false = false ∧
    isSupported ["*"] none false = true ∧
    isSupported ["^2.0.0"] none false = false := by
  refine ⟨?_, by decide, by decide, by decide, by decide⟩
  intro svs version ip
  cases version with
  | none => simp [isSupported, List.elem_iff]
  | some v => simp [isSupported, List.any_eq_true]

/-- C10: with no `apiKey` in the config and neither `HYPERDX_API_KEY` nor
`OTEL_EXPORTER_OTLP_HEADERS` in the environment, `initSDK` returns at the
early-return guard: no otel env defaults are written, no logger or SDK is
constructed or started, no repatch pass runs and no termination-signal
handlers are installed. -/
theorem C10_initSDK_early_return (config : SDKConfig) (env : EnvVars)
    (defaultStop : Bool) (h1 : config.apiKey = none)
    (h2 : env.hyperdxApiKey = none) (h3 : env.otlpHeaders = none) :
    initSDKEffects config env defaultStop = [InitEffect.skippedInit] := by
  simp [initSDKEffects, h1, h2, h3, jsTruthy]

/-- Witness for C10 at a concrete configuration and environment. -/
theorem C10_witness :
    cfgNoKey.apiKey = none ∧ envVarsNoKey.hyperdxApiKey = none ∧
      envVarsNoKey.otlpHeaders = none ∧
      initSDKEffects cfgNoKey envVarsNoKey true = [InitEffect.skippedInit] :=
  ⟨rfl, rfl, rfl, C10_initSDK_early_return cfgNoKey envVarsNoKey true rfl rfl rfl⟩

/-- C6: with no task-local-storage-backed context manager (undefined
manager, as on Node.js runtimes older than 14.8.0, a manager without
`getMutableContext`, or no active mutable context), `setTraceAttributes`
is a silent no-op: it returns with the state unchanged. -/
theorem C6_setTraceAttributes_noop (cm : Option ContextManagerState)
    (attrs : List (String × AttrValue))
    (h : cm = none ∨ ∃ c, cm = some c ∧
      (c.hasGetMutableContext = false ∨ c.mutableContext = none)) :
    setTraceAttributes cm attrs = cm ∧
      ∀ (nodeVersion : String) (active : Option MutableContext),
        semverGte nodeVersion "14.8.0" = false →
          mkContextManager nodeVersion active = none := by
  constructor
  · rcases h with rfl | ⟨c, rfl, hc | hc⟩
    · rfl
    · simp [setTraceAttributes, hc]
    · cases hget : c.hasGetMutableContext <;> simp [setTraceAttributes, hget, hc]
  · intro nv active hlt
    simp [mkContextManager, hlt]

/-- Witness for C6: a manager whose store has no active mutable context. -/
theorem C6_witness :
    (some cmsNoCtx = none ∨ ∃ c, some cmsNoCtx = some c ∧
      (c.hasGetMutableContext = false ∨ c.mutableContext = none)) ∧
    setTraceAttributes (some cmsNoCtx) [("tenant", AttrValue.str "acme")] =
      some cmsNoCtx :=
  ⟨Or.inr ⟨cmsNoCtx, rfl, Or.inr rfl⟩,
    (C6_setTraceAttributes_noop (some cmsNoCtx) [("tenant", AttrValue.str "acme")]
      (Or.inr ⟨cmsNoCtx, rfl, Or.inr rfl⟩)).1⟩

theorem find?_cons_true {α : Type} (p : α → Bool) (a : α) (l : List α)
    (h : p a = true) : List.find? p (a :: l) = some a := by
  simp [List.find?, h]

theorem find?_cons_false {α : Type} (p : α → Bool) (a : α) (l : List α)
    (h : p a = false) : List.find? p (a :: l) = List.find? p l := by
  simp [List.find?, h]

theorem find?_map_replace (k : String) (v : AttrValue) :
    ∀ (m : List (String × AttrValue)), m.any (fun p => p.1 == k) = true →
      (m.map (fun p => if p.1 == k then (k, v) else p)).find? (fun p => p.1 == k) =
        some (k, v) := by
  intro m h
  induction m with
  | nil => simp at h
  | cons p rest ih =>
    cases hp : (p.1 == k) with
    | true =>
      simp only [List.map_cons, if_pos hp]
      exact find?_cons_true _ _ _ (by simp)
    | false =>
      have hany : rest.any (fun p => p.1 == k) = true := by
        simpa [List.any_cons, hp] using h
      have hp' : ¬ (p.1 == k) = true := by simp [hp]
      simp only [List.map_cons, if_neg hp']
      rw [find?_cons_false (fun p => p.1 == k) p _ hp]
      exact ih hany

theorem find?_map_replace_ne (k : String) (v : AttrValue) (q : String) (hne : q ≠ k) :
    ∀ (m : List (String × AttrValue)),
      (m.map (fun p => if p.1 == k then (k, v) else p)).find? (fun p => p.1 == q) =
        m.find? (fun p => p.1 == q) := by
  intro m
  induction m with
  | nil => rfl
  | cons p rest ih =>
    cases hp : (p.1 == k) with
    | true =>
      have hpk : p.1 = k := by simpa using hp
      have h1 : (((k, v) : String × AttrValue).1 == q) = false := by
        simp only [beq_eq_false_iff_ne]
        exact fun h => hne h.symm
      have h2 : (p.1 == q) = false := by
        simp only [hpk, beq_eq_false_iff_ne]
        exact fun h => hne h.symm
      simp only [List.map_cons, if_pos hp]
      rw [find?_cons_false (fun p => p.1 == q) ((k, v) : String × AttrValue) _ h1,
        find?_cons_false (fun p => p.1 == q) p _ h2]
      exact ih
    | false =>
      have hp' : ¬ (p.1 == k) = true := by simp [hp]
      simp only [List.map_cons, if_neg hp']
      cases hq : (p.1 == q) with
      | true =>
        rw [find?_cons_true (fun p => p.1 == q) p _ hq,
          find?_cons_true (fun p => p.1 == q) p _ hq]
      | false =>
        rw [find?_cons_false (fun p => p.1 == q) p _ hq,
          find?_cons_false (fun p => p.1 == q) p _ hq]
        exact ih

theorem mapGet_mapSet_self (m : List (String × AttrValue)) (k : String) (v : AttrValue) :
    mapGet (mapSet m k v) k = some v := by
  unfold mapGet mapSet
  by_cases h : m.any (fun p => p.1 == k)
  · rw [if_pos h, find?_map_replace k v m h]
    rfl
  · rw [if_neg h, List.find?_append]
    have hnone : m.find? (fun p => p.1 == k) = none := by
      rw [List.find?_eq_none]
      intro p hp hcontra
      exact absurd (List.any_eq_true.mpr ⟨p, hp, hcontra⟩) h
    rw [hnone, find?_cons_true (fun p => p.1 == k) ((k, v) : String × AttrValue) _ (by simp)]
    rfl

theorem mapGet_mapSet_ne (m : List (String × AttrValue)) (k : String) (v : AttrValue)
    (q : String) (hne : q ≠ k) : mapGet (mapSet m k v) q = mapGet m q := by
  unfold mapGet mapSet
  by_cases h : m.any (fun p => p.1 == k)
  · rw [if_pos h, find?_map_replace_ne k v q hne m]
  · rw [if_neg h, List.find?_append]
    have hkq : (((k, v) : String × AttrValue).1 == q) = false := by
      simp only [beq_eq_false_iff_ne]
      exact fun h => hne h.symm
    rw [find?_cons_false (fun p => p.1 == q) ((k, v) : String × AttrValue) _ hkq]
    cases m.find? (fun p => p.1 == q) <;> rfl

theorem mapGet_mergeAttrs (attrs : List (String × AttrValue)) :
    ∀ (m0 : List (String × AttrValue)) (k : String),
      mapGet (mergeAttrs m0 attrs) k = (lastVal attrs k).or (mapGet m0 k) := by
  induction attrs with
  | nil =>
    intro m0 k
    simp [mergeAttrs, lastVal]
  | cons a rest ih =>
    intro m0 k
    have hstep : mergeAttrs m0 (a :: rest) = mergeAttrs (mapSet m0 a.1 a.2) rest := rfl
    rw [hstep, ih]
    have hlast : lastVal (a :: rest) k =
        (lastVal rest k).or (if a.1 == k then some a.2 else none) := by
      simp only [lastVal, List.reverse_cons, List.find?_append]
      cases hr : rest.reverse.find? (fun p => p.1 == k) with
      | none => cases ha : (a.1 == k) <;> simp [List.find?, ha]
      | some p => simp
    rw [hlast]
    cases hr : lastVal rest k with
    | some p => simp
    | none =>
      simp only [Option.none_or]
      by_cases ha : a.1 == k
      · have : a.1 = k := by simpa using ha
        rw [if_pos ha, this, mapGet_mapSet_self]
        simp
      · have : k ≠ a.1 := fun h => ha (by simp [h])
        rw [if_neg ha, mapGet_mapSet_ne m0 a.1 a.2 k this]
        simp

/-- C5: when the store supports mutable extensions and a mutable context
is active, `setTraceAttributes` merges the given entries into the
context's `traceAttributes` map: last write wins per key, and every key
not present in the given mapping keeps its previous value. -/
theorem C5_setTraceAttributes_merge (c : ContextManagerState) (mc : MutableContext)
    (attrs : List (String × AttrValue))
    (hget : c.hasGetMutableContext = true) (hmc : c.mutableContext = some mc) :
    setTraceAttributes (some c) attrs =
      some { c with
        mutableContext :=
          some (MutableContext.mk (some (mergeAttrs (mc.traceAttributes.getD []) attrs))) } ∧
    (∀ k v, lastVal attrs k = some v →
      mapGet (mergeAttrs (mc.traceAttributes.getD []) attrs) k = some v) ∧
    (∀ k, lastVal attrs k = none →
      mapGet (mergeAttrs (mc.traceAttributes.getD []) attrs) k =
        mapGet (mc.traceAttributes.getD []) k) := by
  refine ⟨by simp [setTraceAttributes, hget, hmc], ?_, ?_⟩
  · intro k v hv
    rw [mapGet_mergeAttrs attrs _ k, hv]
    rfl
  · intro k hk
    rw [mapGet_mergeAttrs attrs _ k, hk]
    simp

/-- Witness for C5: merging `env ↦ prod` into a context already holding
`tenant ↦ acme` keeps the old key and adds the new one. -/
theorem C5_witness :
    cmsActive.hasGetMutableContext = true ∧
    setTraceAttributes (some cmsActive) [("env", AttrValue.str "prod")] =
      some ⟨true, some ⟨some [("tenant", AttrValue.str "acme"),
        ("env", AttrValue.str "prod")]⟩⟩ :=
  ⟨rfl, by
    have h := (C5_setTraceAttributes_merge cmsActive
      ⟨some [("tenant", AttrValue.str "acme")]⟩
      [("env", AttrValue.str "prod")] rfl rfl).1
    exact h.trans (by decide)⟩

theorem mem_exportsLog {env : ModuleEnv} {m : ModuleDef} {e : Ev}
    (he : e ∈ exportsLog env m) : ∃ s, e = Ev.logError s := by
  unfold exportsLog at he
  cases hr : env.requireExports m.name with
  | ok ex => rw [hr] at he; simp at he
  | error s => rw [hr] at he; simp at he; exact ⟨_, he⟩

theorem mem_versionLog {env : ModuleEnv} {m : ModuleDef} {e : Ev}
    (he : e ∈ versionLog env m) : ∃ s, e = Ev.logError s := by
  unfold versionLog at he
  cases hr : env.requirePkgVersion m.name with
  | ok v => rw [hr] at he; simp at he
  | error s => rw [hr] at he; simp at he; exact ⟨_, he⟩

theorem mem_modulePatchEvs {env : ModuleEnv} {n : Nat} {m : ModuleDef} {e : Ev}
    (he : e ∈ modulePatchEvs env n m) :
    e = Ev.patchModule n m.name ((resolvedExportsAfter env m).getD 0)
        (resolvedVersionAfter env m) ∨
      ∃ s, e = Ev.logError s := by
  unfold modulePatchEvs at he
  split at he
  · simp at he
    rcases he with rfl | he
    · exact Or.inl rfl
    · exact Or.inr ⟨_, he.2⟩
  · simp at he

theorem mem_processFile {env : ModuleEnv} {n : Nat} {mn : String} {v : Option String}
    {f : FileDef} {e : Ev} (he : e ∈ (processFile env n mn v f).2) :
    (∃ s, e = Ev.logError s) ∨ ∃ ex, e = Ev.patchFile n mn f.name ex v := by
  unfold processFile at he
  cases hr : env.requireExports f.name with
  | error s =>
    rw [hr] at he
    simp at he
    exact Or.inl ⟨_, he⟩
  | ok ex =>
    rw [hr] at he
    simp at he
    rcases he with rfl | he
    · exact Or.inr ⟨ex, rfl⟩
    · exact Or.inl ⟨_, he.2⟩

theorem mem_fileStep {env : ModuleEnv} {n : Nat} {m : ModuleDef} {f : FileDef} {e : Ev}
    (he : e ∈ (fileStep env n m f).2) :
    (∃ s, e = Ev.logError s) ∨
      ∃ ex, e = Ev.patchFile n m.name f.name ex (resolvedVersionAfter env m) := by
  unfold fileStep at he
  split at he
  · exact mem_processFile he
  · simp at he

/-- Every event a module's processing emits is a caught-error log, the
module-level patch invocation, or a file-level patch invocation — all
tagged with this instrumentation. -/
theorem mem_processModule {env : ModuleEnv} {n : Nat} {m : ModuleDef} {e : Ev}
    (he : e ∈ (processModule env n m).2) :
    (∃ s, e = Ev.logError s) ∨
      e = Ev.patchModule n m.name ((resolvedExportsAfter env m).getD 0)
        (resolvedVersionAfter env m) ∨
      ∃ f ∈ m.files, ∃ ex, e = Ev.patchFile n m.name f.name ex
        (resolvedVersionAfter env m) := by
  unfold processModule at he
  cases hres : env.resolve m.name with
  | none => rw [hres] at he; simp at he
  | some mid =>
    rw [hres] at he
    simp only [List.mem_append] at he
    rcases he with ((he | he) | he) | he
    · exact Or.inl (mem_exportsLog he)
    · exact Or.inl (mem_versionLog he)
    · rcases mem_modulePatchEvs he with h | h
      · exact Or.inr (Or.inl h)
      · exact Or.inl h
    · simp only [List.flatMap_map, List.mem_flatMap] at he
      rcases he with ⟨f, hf, hef⟩
      rcases mem_fileStep hef with h | ⟨ex, rfl⟩
      · exact Or.inl h
      · exact Or.inr (Or.inr ⟨f, hf, ex, rfl⟩)

theorem countModulePatches_append (a b : List Ev) (s : String) :
    countModulePatches (a ++ b) s = countModulePatches a s + countModulePatches b s := by
  simp [countModulePatches, List.filter_append]

theorem countModulePatches_eq_zero {evs : List Ev} {s : String}
    (h : ∀ e ∈ evs, e.isModulePatchOf s = false) : countModulePatches evs s = 0 := by
  unfold countModulePatches
  rw [List.length_eq_zero, List.filter_eq_nil_iff]
  intro e he
  simp [h e he]

theorem countModulePatches_modulePatchEvs (env : ModuleEnv) (n : Nat) (m : ModuleDef) :
    countModulePatches (modulePatchEvs env n m) m.name =
      if isSupported m.supportedVersions (resolvedVersionAfter env m) m.includePrerelease
          && m.hasPatch && (resolvedExportsAfter env m).isSome then 1 else 0 := by
  unfold modulePatchEvs
  split
  · cases hpt : m.patchThrows <;>
      simp [hpt, countModulePatches, List.filter, Ev.isModulePatchOf]
  · simp [countModulePatches]

/-- The number of module-level patch invocations a module's processing
emits for its own name: exactly one when the module resolves, its
re-resolved version is supported, its patch is a function and its exports
are present; zero otherwise. -/
theorem countModulePatches_processModule (env : ModuleEnv) (n : Nat) (m : ModuleDef) :
    countModulePatches (processModule env n m).2 m.name =
      if (env.resolve m.name).isSome
          && (isSupported m.supportedVersions (resolvedVersionAfter env m) m.includePrerelease
            && m.hasPatch && (resolvedExportsAfter env m).isSome) then 1 else 0 := by
  cases hres : env.resolve m.name with
  | none => simp [processModule, hres, countModulePatches]
  | some mid =>
    have hA : countModulePatches (exportsLog env m) m.name = 0 :=
      countModulePatches_eq_zero fun e he => by
        rcases mem_exportsLog he with ⟨s, rfl⟩; rfl
    have hB : countModulePatches (versionLog env m) m.name = 0 :=
      countModulePatches_eq_zero fun e he => by
        rcases mem_versionLog he with ⟨s, rfl⟩; rfl
    have hD : countModulePatches
        ((m.files.map (fileStep env n m)).flatMap Prod.snd) m.name = 0 :=
      countModulePatches_eq_zero fun e he => by
        simp only [List.flatMap_map, List.mem_flatMap] at he
        rcases he with ⟨f, hf, hef⟩
        rcases mem_fileStep hef with ⟨s, rfl⟩ | ⟨ex, rfl⟩ <;> rfl
    simp only [processModule, hres]
    rw [countModulePatches_append, countModulePatches_append, countModulePatches_append,
      hA, hB, hD, countModulePatches_modulePatchEvs]
    simp

theorem processModule_fst (env : ModuleEnv) (n : Nat) (m : ModuleDef) (mid : String)
    (hres : env.resolve m.name = some mid) :
    (processModule env n m).1 = { m with
      moduleExports := resolvedExportsAfter env m
      moduleVersion := resolvedVersionAfter env m
      files := (m.files.map (fileStep env n m)).map Prod.fst } := by
  simp [processModule, hres]

theorem repatchPass_one (env : ModuleEnv) (i : Instr) (m : ModuleDef)
    (hmods : i.modules = some [m]) (hdis : i.disableThrows = false) :
    repatchPass env [i] =
      ([{ i with modules := some [(processModule env i.id m).1] }],
        (Ev.disable i.id :: (processModule env i.id m).2, false)) := by
  simp [repatchPass, processInstr, hmods, hdis]

theorem countModulePatches_cons_disable (j : Nat) (evs : List Ev) (s : String) :
    countModulePatches (Ev.disable j :: evs) s = countModulePatches evs s := by
  simp [countModulePatches, List.filter, Ev.isModulePatchOf]

/-- C9: a `PatchTarget` whose module is absent from the module-resolution
cache (`getModuleId` returns `null`) is skipped entirely by the repatch
pass: no events are emitted for it, its state is unchanged, no error is
raised, and every sibling module of the same instrumentation is still
processed. -/
theorem C9_absent_module_skipped (env : ModuleEnv) (i : Instr) (m : ModuleDef)
    (ms1 ms2 : List ModuleDef)
    (hres : env.resolve m.name = none)
    (hmods : i.modules = some (ms1 ++ m :: ms2))
    (hdis : i.disableThrows = false) :
    processModule env i.id m = (m, []) ∧
    (processInstr env i).2.2 = false ∧
    (processInstr env i).2.1 =
      Ev.disable i.id ::
        (ms1.flatMap (fun x => (processModule env i.id x).2) ++
          ms2.flatMap (fun x => (processModule env i.id x).2)) ∧
    (processInstr env i).1 = { i with
      modules := some
        (ms1.map (fun x => (processModule env i.id x).1) ++
          m :: ms2.map (fun x => (processModule env i.id x).1)) } := by
  have hm : processModule env i.id m = (m, []) := by
    simp [processModule, hres]
  refine ⟨hm, ?_, ?_, ?_⟩ <;>
    simp [processInstr, hmods, hdis, List.map_append, List.flatMap_append,
      List.flatMap_map, Function.comp_def, hm]

/-- Witness for C9: under `envOnlyB`, module `"a"` is absent; the pass
over the instrumentation holding `"a"` and `"b"` emits nothing for `"a"`,
does not abort, and still patches `"b"`. -/
theorem C9_witness :
    envOnlyB.resolve modA.name = none ∧
    processModule envOnlyB instrAB.id modA = (modA, []) ∧
    (processInstr envOnlyB instrAB).2.2 = false ∧
    countModulePatches (processInstr envOnlyB instrAB).2.1 "b" = 1 :=
  ⟨by decide,
    (C9_absent_module_skipped envOnlyB instrAB modA [] [modB] (by decide) rfl rfl).1,
    (C9_absent_module_skipped envOnlyB instrAB modA [] [modB] (by decide) rfl rfl).2.1,
    by decide⟩

/-- C2 fails on the code: the repatch step keeps no patched state, so
running it twice against the same resolved exports object (the `require`
cache returns exports id 7 both times) invokes the module's patch function
twice, not once. -/
theorem C2_counterexample :
    countModulePatches ((repatchPass envCached [instrM]).2.1 ++
        (repatchPass envCached (repatchPass envCached [instrM]).1).2.1) "m" = 2 ∧
    ¬ countModulePatches ((repatchPass envCached [instrM]).2.1 ++
        (repatchPass envCached (repatchPass envCached [instrM]).1).2.1) "m" = 1 ∧
    (repatchPass envCached [instrM]).2.1 =
      [Ev.disable 0, Ev.patchModule 0 "m" 7 (some "2.3.1")] ∧
    (repatchPass envCached (repatchPass envCached [instrM]).1).2.1 =
      [Ev.disable 0, Ev.patchModule 0 "m" 7 (some "2.3.1")] := by
  refine ⟨by decide, by decide, by decide, by decide⟩

/-- C2 amended: each repatch pass invokes a compatible, present target's
patch function exactly once per pass; but re-running the resolve-and-apply
pass against the same resolved exports object invokes the patch function
again (each pass first disables, so the re-application follows an
unpatch), rather than being a no-op. -/
theorem C2_patch_once_per_pass (env : ModuleEnv) (i : Instr) (m : ModuleDef)
    (mid : String) (e : Nat) (v : String)
    (hmods : i.modules = some [m]) (hdis : i.disableThrows = false)
    (hres : env.resolve m.name = some mid)
    (hexp : env.requireExports m.name = Except.ok e)
    (hver : env.requirePkgVersion m.name = Except.ok v)
    (hsup : isSupported m.supportedVersions (some v) m.includePrerelease = true)
    (hpatch : m.hasPatch = true) :
    countModulePatches (repatchPass env [i]).2.1 m.name = 1 ∧
    countModulePatches ((repatchPass env [i]).2.1 ++
      (repatchPass env (repatchPass env [i]).1).2.1) m.name = 2 := by
  have hVA : resolvedVersionAfter env m = some v := by
    simp [resolvedVersionAfter, hver]
  have hEA : resolvedExportsAfter env m = some e := by
    simp [resolvedExportsAfter, hexp]
  have h1 := repatchPass_one env i m hmods hdis
  have hc1 : countModulePatches (repatchPass env [i]).2.1 m.name = 1 := by
    rw [h1]
    rw [countModulePatches_cons_disable, countModulePatches_processModule]
    simp [hres, hVA, hEA, hsup, hpatch]
  set m1 := (processModule env i.id m).1 with hm1
  have hfst := processModule_fst env i.id m mid hres
  have hm1name : m1.name = m.name := by rw [hm1, hfst]
  have hm1sup : m1.supportedVersions = m.supportedVersions := by rw [hm1, hfst]
  have hm1ip : m1.includePrerelease = m.includePrerelease := by rw [hm1, hfst]
  have hm1hp : m1.hasPatch = m.hasPatch := by rw [hm1, hfst]
  have hVA1 : resolvedVersionAfter env m1 = some v := by
    simp [resolvedVersionAfter, hm1name, hver]
  have hEA1 : resolvedExportsAfter env m1 = some e := by
    simp [resolvedExportsAfter, hm1name, hexp]
  have hi1mods : ({ i with modules := some [m1] } : Instr).modules = some [m1] := rfl
  have hi1dis : ({ i with modules := some [m1] } : Instr).disableThrows = false := hdis
  have h2 := repatchPass_one env { i with modules := some [m1] } m1 hi1mods hi1dis
  have hc2 : countModulePatches
      (repatchPass env [{ i with modules := some [m1] }]).2.1 m.name = 1 := by
    rw [h2]
    rw [countModulePatches_cons_disable]
    have := countModulePatches_processModule env
      ({ i with modules := some [m1] } : Instr).id m1
    rw [hm1name] at this
    rw [this]
    rw [hm1sup, hm1ip, hm1hp, hVA1, hEA1]
    simp [hres, hsup, hpatch]
  refine ⟨hc1, ?_⟩
  rw [countModulePatches_append, hc1]
  have hfsteq : (repatchPass env [i]).1 = [{ i with modules := some [m1] }] := by
    rw [h1]
  rw [hfsteq, hc2]

/-- Witness for C2's amended theorem at the concrete cached environment. -/
theorem C2_witness :
    instrM.modules = some [modM] ∧
    countModulePatches (repatchPass envCached [instrM]).2.1 modM.name = 1 :=
  ⟨rfl, (C2_patch_once_per_pass envCached instrM modM "/node_modules/m/index.js" 7 "2.3.1"
    rfl rfl rfl rfl rfl (by decide) rfl).1⟩

/-- C7 fails on the code as stated: when reading package.json throws, the
catch block leaves `module.moduleVersion` at its previous value rather
than absent; with a previously resolved version 1.9.0 and ranges
`^1.0.0`, the compatibility check still passes (no wildcard needed) and
the patch is applied. -/
theorem C7_counterexample :
    (processModule envNoPkg 0 modPrevVersion).1.moduleVersion = some "1.9.0" ∧
    ¬ (processModule envNoPkg 0 modPrevVersion).1.moduleVersion = none ∧
    countModulePatches (processModule envNoPkg 0 modPrevVersion).2 "m" = 1 ∧
    modPrevVersion.supportedVersions.contains "*" = false := by
  refine ⟨by decide, by decide, by decide, by decide⟩

/-- C7 amended: a failure to read version metadata is non-fatal — a
diagnostic is logged and the resolved version is left unchanged; in
particular, when no version had previously been resolved it remains
absent, and the compatibility check then accepts only the wildcard
range. -/
theorem C7_version_read_failure (env : ModuleEnv) (n : Nat) (m : ModuleDef)
    (mid msg : String)
    (hres : env.resolve m.name = some mid)
    (herr : env.requirePkgVersion m.name = Except.error msg) :
    (processModule env n m).1.moduleVersion = m.moduleVersion ∧
    Ev.logError "Error re-requiring package.json for nodejs module" ∈
      (processModule env n m).2 ∧
    (m.moduleVersion = none →
      countModulePatches (processModule env n m).2 m.name =
        if m.supportedVersions.contains "*" && m.hasPatch
            && (resolvedExportsAfter env m).isSome then 1 else 0) := by
  have hVA : resolvedVersionAfter env m = m.moduleVersion := by
    simp [resolvedVersionAfter, herr]
  refine ⟨?_, ?_, ?_⟩
  · rw [processModule_fst env n m mid hres]
    exact hVA
  · have hmem : Ev.logError "Error re-requiring package.json for nodejs module" ∈
        versionLog env m := by
      simp [versionLog, herr]
    simp only [processModule, hres, List.mem_append]
    exact Or.inl (Or.inl (Or.inr hmem))
  · intro hnone
    rw [countModulePatches_processModule, hVA, hnone]
    simp [hres, isSupported]

/-- Witness for C7's amended theorem: package.json read fails while a
version 1.9.0 was previously resolved; the version field is unchanged. -/
theorem C7_witness :
    envNoPkg.resolve modPrevVersion.name = some "/id" ∧
    (processModule envNoPkg 0 modPrevVersion).1.moduleVersion =
      modPrevVersion.moduleVersion :=
  ⟨rfl, (C7_version_read_failure envNoPkg 0 modPrevVersion "/id" "ENOENT" rfl rfl).1⟩

theorem processInstr_threw (env : ModuleEnv) (i : Instr) :
    (processInstr env i).2.2 = (i.disableThrows && i.modules.isSome) := by
  cases h : i.modules with
  | none => simp [processInstr, h]
  | some ms => cases hd : i.disableThrows <;> simp [processInstr, h, hd]

theorem repatchPass_threw (env : ModuleEnv) : ∀ (instrs : List Instr),
    (repatchPass env instrs).2.2 =
      instrs.any fun j => j.disableThrows && j.modules.isSome := by
  intro instrs
  induction instrs with
  | nil => rfl
  | cons i rest ih =>
    simp only [repatchPass, List.any_cons]
    cases hth : (processInstr env i).2.2 with
    | true =>
      have h2 : (i.disableThrows && i.modules.isSome) = true := by
        rw [← processInstr_threw env i]; exact hth
      simp [h2]
    | false =>
      have h2 : (i.disableThrows && i.modules.isSome) = false := by
        rw [← processInstr_threw env i]; exact hth
      simp [h2, ih]

theorem repatchPass_no_throw (env : ModuleEnv) : ∀ (instrs : List Instr),
    (∀ j ∈ instrs, (processInstr env j).2.2 = false) →
    repatchPass env instrs =
      (instrs.map (fun j => (processInstr env j).1),
        (instrs.flatMap (fun j => (processInstr env j).2.1), false)) := by
  intro instrs
  induction instrs with
  | nil => intro h; rfl
  | cons i rest ih =>
    intro h
    have hi := h i (List.mem_cons_self i rest)
    have hrest := ih fun j hj => h j (List.mem_cons_of_mem i hj)
    simp only [repatchPass, hi, List.map_cons, List.flatMap_cons]
    rw [if_neg (by simp), hrest]

theorem patchInvocations_modulePatchEvs (env : ModuleEnv) (n : Nat) (m : ModuleDef)
    (b : Bool) :
    patchInvocations (modulePatchEvs env n { m with patchThrows := b }) =
      patchInvocations (modulePatchEvs env n m) := by
  have hva : resolvedVersionAfter env { m with patchThrows := b } =
      resolvedVersionAfter env m := rfl
  have hea : resolvedExportsAfter env { m with patchThrows := b } =
      resolvedExportsAfter env m := rfl
  unfold modulePatchEvs
  dsimp only
  rw [hva, hea]
  cases hc : (isSupported m.supportedVersions (resolvedVersionAfter env m)
      m.includePrerelease && m.hasPatch && (resolvedExportsAfter env m).isSome) with
  | false => simp [hc]
  | true =>
    simp only [hc, if_true]
    cases b <;> cases hpt : m.patchThrows <;>
      simp [patchInvocations, List.filter, patchInstrId]

/-- A throwing module-level patch function changes which errors are
logged but not which patch invocations (its own included, its files'
included) the pass performs. -/
theorem patchInvocations_patchThrows (env : ModuleEnv) (n : Nat) (m : ModuleDef)
    (b : Bool) :
    patchInvocations (processModule env n { m with patchThrows := b }).2 =
      patchInvocations (processModule env n m).2 := by
  cases hres : env.resolve m.name with
  | none =>
    have h1 : processModule env n { m with patchThrows := b } =
        ({ m with patchThrows := b }, []) := by simp [processModule, hres]
    have h2 : processModule env n m = (m, []) := by simp [processModule, hres]
    rw [h1, h2]
  | some mid =>
    simp only [processModule, hres]
    simp only [patchInvocations, List.filter_append]
    have hlog : ∀ (xs : List Ev), (∀ e ∈ xs, ∃ s, e = Ev.logError s) →
        xs.filter (fun e => (patchInstrId e).isSome) = [] := by
      intro xs hxs
      rw [List.filter_eq_nil_iff]
      intro e he
      rcases hxs e he with ⟨s, rfl⟩
      simp [patchInstrId]
    rw [hlog _ fun e he => mem_exportsLog he, hlog _ fun e he => mem_versionLog he,
      hlog _ fun e he => mem_exportsLog he, hlog _ fun e he => mem_versionLog he]
    have hmp := patchInvocations_modulePatchEvs env n m b
    simp only [patchInvocations] at hmp
    rw [hmp]
    rfl

/-- C3 amended: exceptions thrown by patch functions or by version or
identity resolution are caught and logged and every sibling and
subsequent target is still attempted (a pass with no throwing unpatch
never aborts, and a throwing patch function changes only the logged
errors); but an exception from an unpatch function running inside
`instrumentation.disable()` is not caught and aborts the pass, leaving
the remaining instrumentations untouched. -/
theorem C3_patch_errors_isolated (env : ModuleEnv) (instrs : List Instr)
    (h : ∀ j ∈ instrs, j.disableThrows = false) :
    (repatchPass env instrs).2.2 = false ∧
    (repatchPass env instrs).2.1 =
      instrs.flatMap (fun j => (processInstr env j).2.1) ∧
    (repatchPass env instrs).1 = instrs.map (fun j => (processInstr env j).1) ∧
    (∀ (instrs2 : List Instr), (repatchPass env instrs2).2.2 =
      instrs2.any fun j => j.disableThrows && j.modules.isSome) ∧
    (∀ (n : Nat) (m : ModuleDef) (b : Bool),
      patchInvocations (processModule env n { m with patchThrows := b }).2 =
        patchInvocations (processModule env n m).2) := by
  have hth : ∀ j ∈ instrs, (processInstr env j).2.2 = false := by
    intro j hj
    rw [processInstr_threw, h j hj]
    rfl
  have hfull := repatchPass_no_throw env instrs hth
  refine ⟨by rw [hfull], by rw [hfull], by rw [hfull],
    repatchPass_threw env, patchInvocations_patchThrows env⟩

/-- C3 fails on the code as stated: an unpatch function that throws inside
`disable()` (instrumentation `instrAThrowing`) is not caught — the pass
aborts and the sibling instrumentation's compatible module `"b"` is never
patched, although it is patched when the unpatch behaves. -/
theorem C3_counterexample :
    (repatchPass envAB [instrAThrowing, instrB]).2.2 = true ∧
    countModulePatches (repatchPass envAB [instrAThrowing, instrB]).2.1 "b" = 0 ∧
    countModulePatches (repatchPass envAB [instrAOk, instrB]).2.1 "b" = 1 := by
  refine ⟨by decide, by decide, by decide⟩

/-- Witness for C3's amended theorem at a concrete two-instrumentation
pass. -/
theorem C3_witness :
    (∀ j ∈ [instrAOk, instrB], j.disableThrows = false) ∧
    (repatchPass envAB [instrAOk, instrB]).2.2 = false :=
  ⟨by decide, (C3_patch_errors_isolated envAB [instrAOk, instrB] (by decide)).1⟩

theorem processModule_events (env : ModuleEnv) (n : Nat) (m : ModuleDef) :
    ∀ e ∈ (processModule env n m).2,
      e.isDisable = false ∧ ∀ j, patchInstrId e = some j → j = n := by
  intro e he
  rcases mem_processModule he with ⟨s, rfl⟩ | rfl | ⟨f, hf, ex, rfl⟩
  · exact ⟨rfl, fun j hj => by simp [patchInstrId] at hj⟩
  · refine ⟨rfl, fun j hj => ?_⟩
    simp [patchInstrId] at hj
    omega
  · refine ⟨rfl, fun j hj => ?_⟩
    simp [patchInstrId] at hj
    omega

theorem checkDisableFirst_append_no_disable (d : List Nat) (b : List Ev) :
    ∀ (a : List Ev),
      (∀ e ∈ a, e.isDisable = false ∧ ∀ j, patchInstrId e = some j → j ∈ d) →
      checkDisableFirst d (a ++ b) = checkDisableFirst d b := by
  intro a
  induction a with
  | nil => intro h; rfl
  | cons e rest ih =>
    intro h
    have he := h e (List.mem_cons_self e rest)
    have hrest := ih fun x hx => h x (List.mem_cons_of_mem e hx)
    cases e with
    | disable j => simp [Ev.isDisable] at he
    | patchModule j mn ex v =>
      have hj : j ∈ d := he.2 j rfl
      have hc : d.contains j = true := List.elem_iff.mpr hj
      simp only [List.cons_append, checkDisableFirst, patchInstrId]
      rw [hc]
      simpa using hrest
    | patchFile j mn fn ex v =>
      have hj : j ∈ d := he.2 j rfl
      have hc : d.contains j = true := List.elem_iff.mpr hj
      simp only [List.cons_append, checkDisableFirst, patchInstrId]
      rw [hc]
      simpa using hrest
    | logError s =>
      simp only [List.cons_append, checkDisableFirst, patchInstrId]
      exact hrest

theorem checkDisableFirst_repatchPass (env : ModuleEnv) : ∀ (instrs : List Instr)
    (d : List Nat), checkDisableFirst d (repatchPass env instrs).2.1 = true := by
  intro instrs
  induction instrs with
  | nil => intro d; rfl
  | cons i rest ih =>
    intro d
    cases hmods : i.modules with
    | none =>
      have hpi : processInstr env i = (i, ([], false)) := by
        simp [processInstr, hmods]
      simp only [repatchPass, hpi]
      rw [if_neg (by simp)]
      simpa using ih d
    | some ms =>
      cases hd : i.disableThrows with
      | true =>
        have hpi : processInstr env i = (i, ([], true)) := by
          simp [processInstr, hmods, hd]
        simp only [repatchPass, hpi]
        simp [checkDisableFirst]
      | false =>
        have hpi : processInstr env i =
            ({ i with modules := some ((ms.map (processModule env i.id)).map Prod.fst) },
              (Ev.disable i.id :: (ms.map (processModule env i.id)).flatMap Prod.snd,
                false)) := by
          simp [processInstr, hmods, hd]
        have hmodEvs : ∀ e ∈ (ms.map (processModule env i.id)).flatMap Prod.snd,
            e.isDisable = false ∧ ∀ j, patchInstrId e = some j → j ∈ i.id :: d := by
          intro e he
          simp only [List.flatMap_map, List.mem_flatMap] at he
          rcases he with ⟨m', hm', he⟩
          rcases processModule_events env i.id m' e he with ⟨h1, h2⟩
          exact ⟨h1, fun j hj => by rw [h2 j hj]; exact List.mem_cons_self _ _⟩
        simp only [repatchPass, hpi]
        rw [if_neg (by simp)]
        simp only [List.cons_append, List.append_eq, checkDisableFirst]
        rw [checkDisableFirst_append_no_disable (i.id :: d) _ _ hmodEvs]
        exact ih (i.id :: d)

/-- C4: in every repatch pass, each instrumentation's `disable()` — which
runs its unpatch functions — precedes every module-level and file-level
patch invocation of that same instrumentation: no target is re-patched
while its stale patch is still installed. -/
theorem C4_unpatch_before_repatch (env : ModuleEnv) (instrs : List Instr) :
    checkDisableFirst [] (repatchPass env instrs).2.1 = true :=
  checkDisableFirst_repatchPass env instrs []

theorem filter_isFilePatch_nil {xs : List Ev} (h : ∀ e ∈ xs, e.isFilePatch = false) :
    xs.filter Ev.isFilePatch = [] := by
  rw [List.filter_eq_nil_iff]
  intro e he
  simp [h e he]

theorem filePatchEvents_processModule (env : ModuleEnv) (n : Nat) (m : ModuleDef)
    (mid : String) (hres : env.resolve m.name = some mid) :
    filePatchEvents (processModule env n m).2 =
      ((m.files.map (fileStep env n m)).flatMap Prod.snd).filter Ev.isFilePatch := by
  simp only [processModule, hres, filePatchEvents, List.filter_append]
  rw [filter_isFilePatch_nil fun e he => by
      rcases mem_exportsLog he with ⟨s, rfl⟩; rfl,
    filter_isFilePatch_nil fun e he => by
      rcases mem_versionLog he with ⟨s, rfl⟩; rfl,
    filter_isFilePatch_nil fun e he => by
      rcases mem_modulePatchEvs he with rfl | ⟨s, rfl⟩ <;> rfl]
  simp

theorem mem_fileStep_patchFile {env : ModuleEnv} {n : Nat} {m : ModuleDef}
    {f' : FileDef} {fn : String} {ex : Nat}
    (he : Ev.patchFile n m.name fn ex (resolvedVersionAfter env m) ∈
      (fileStep env n m f').2) :
    fn = f'.name ∧
    isSupported f'.supportedVersions (resolvedVersionAfter env m)
      m.includePrerelease = true ∧
    env.requireExports f'.name = Except.ok ex := by
  unfold fileStep at he
  split at he
  · rename_i hsup
    unfold processFile at he
    cases hr : env.requireExports f'.name with
    | error s => rw [hr] at he; simp at he
    | ok ex2 =>
      rw [hr] at he
      simp at he
      obtain ⟨hn, hx⟩ := he
      subst hx
      exact ⟨hn, hsup, rfl⟩
  · simp at he

/-- C8: file-level sub-targets are version-gated independently by their
own supported version ranges: a file's patch is invoked iff its own
ranges accept the module's resolved version (given its exports resolve),
and which file patches run is unchanged when the parent module-level
target's ranges, patch presence, or patch behaviour change. -/
theorem C8_subtarget_version_gating (env : ModuleEnv) (n : Nat) (m : ModuleDef)
    (f : FileDef) (mid : String) (e : Nat)
    (hnodup : (m.files.map FileDef.name).Nodup)
    (hf : f ∈ m.files)
    (hres : env.resolve m.name = some mid)
    (hreq : env.requireExports f.name = Except.ok e) :
    (Ev.patchFile n m.name f.name e (resolvedVersionAfter env m) ∈
        (processModule env n m).2 ↔
      isSupported f.supportedVersions (resolvedVersionAfter env m)
        m.includePrerelease = true) ∧
    (∀ (rs : List String) (hp pt : Bool),
      filePatchEvents (processModule env n
        { m with supportedVersions := rs, hasPatch := hp, patchThrows := pt }).2 =
        filePatchEvents (processModule env n m).2) := by
  constructor
  · constructor
    · intro he
      simp only [processModule, hres, List.mem_append] at he
      rcases he with ((he | he) | he) | he
      · rcases mem_exportsLog he with ⟨s, h⟩
        exact absurd h (by simp)
      · rcases mem_versionLog he with ⟨s, h⟩
        exact absurd h (by simp)
      · rcases mem_modulePatchEvs he with h | ⟨s, h⟩ <;> exact absurd h (by simp)
      · simp only [List.flatMap_map, List.mem_flatMap] at he
        rcases he with ⟨f', hf', hef⟩
        obtain ⟨hname, hsup, hok⟩ := mem_fileStep_patchFile hef
        have : f' = f :=
          List.inj_on_of_nodup_map hnodup hf' hf hname.symm
        subst this
        exact hsup
    · intro hsup
      simp only [processModule, hres, List.mem_append]
      refine Or.inr ?_
      simp only [List.flatMap_map, List.mem_flatMap]
      refine ⟨f, hf, ?_⟩
      unfold fileStep
      rw [if_pos hsup]
      unfold processFile
      rw [hreq]
      exact List.mem_cons_self _ _
  · intro rs hp pt
    have hres2 : env.resolve
        ({ m with supportedVersions := rs, hasPatch := hp, patchThrows := pt } :
          ModuleDef).name = some mid := hres
    rw [filePatchEvents_processModule env n _ mid hres2,
      filePatchEvents_processModule env n m mid hres]
    rfl

/-- Witness for C8: under `envAB` (version 3.0.0), the parent target
`modWithFile` (ranges `^1.0.0`) is incompatible while its file sub-target
`fileF` (ranges `^3.0.0`) is compatible and its patch is invoked. -/
theorem C8_witness :
    fileF ∈ modWithFile.files ∧
    isSupported modWithFile.supportedVersions (resolvedVersionAfter envAB modWithFile)
      modWithFile.includePrerelease = false ∧
    Ev.patchFile 0 modWithFile.name fileF.name 1
        (resolvedVersionAfter envAB modWithFile) ∈
      (processModule envAB 0 modWithFile).2 :=
  ⟨by decide, by decide,
    (C8_subtarget_version_gating envAB 0 modWithFile fileF "/id" 1
      (by decide) (by decide) rfl rfl).1.mpr (by decide)⟩

end HyperDX
